import Mathlib

/-!
Verification development for the kilroylib repository.

The repository snapshot ships only the demonstration notebook
(src/notebooks/example.ipynb) and packaging metadata; the library
implementation (trainers, stop conditions, dataset factories, scheduler)
is not under src/.  The notebook code is embedded faithfully below;
the missing library parts are modelled from the specification document,
each such definition marked by a doc comment starting
"Modelled from the spec:".
-/

namespace Kilroy

/-- Embeds the notebook helper: def mean(it): return sum(it) / len(it).
    Division by zero (empty list) raises ZeroDivisionError in Python,
    rendered here as none. -/
def mean (l : List ℚ) : Option ℚ :=
  if l.length = 0 then none else some (l.sum / l.length)

/-- Python min(a, b): the second argument when it is strictly smaller. -/
def pymin (a b : ℚ) : ℚ := if b < a then b else a

/-- Python max(a, b): the second argument when it is strictly larger. -/
def pymax (a b : ℚ) : ℚ := if a < b then b else a

/-- Embeds Model's p setter: self._p = max(min(value, 1), 0). -/
def clampP (v : ℚ) : ℚ := pymax (pymin v 1) 0

/-- Embeds Model's default constructor argument: Model(p=0.5)
    (stored by __init__ without clamping). -/
def modelInitP : ℚ := 1/2

/-! ## MyFace (notebook cell 3) -/

/-- Python dict assignment d[k] = v on an insertion-ordered assoc list:
    update in place if the key is present, append otherwise. -/
def dictSet {κ γ : Type} [DecidableEq κ] : List (κ × γ) → κ → γ → List (κ × γ)
  | [], k, v => [(k, v)]
  | kv :: rest, k, v =>
      if kv.1 = k then (k, v) :: rest else kv :: dictSet rest k v

/-- Python dict lookup d[k], none when the key is absent (KeyError). -/
def dictGet {κ γ : Type} [DecidableEq κ] : List (κ × γ) → κ → Option γ
  | [], _ => none
  | kv :: rest, k => if kv.1 = k then some kv.2 else dictGet rest k

/-- State of a MyFace instance: counter self.i and dict self.posts. -/
structure FaceState where
  i : Nat
  posts : List (Nat × Bool)
  deriving DecidableEq, Repr

/-- MyFace.__init__: i = 0, posts = empty dict. -/
def FaceState.init : FaceState := ⟨0, []⟩

/-- Python truthiness of the scrap limit: n = limit or 100
    (None and 0 are both falsy, giving 100). -/
def effLimit (limit : Option Nat) : Nat :=
  match limit with
  | none => 100
  | some k => if k = 0 then 100 else k

/-- MyFace.scrap: sets self.i = n + 1 and yields (i, i % 3 == 0)
    for i in range(n), where n = limit or 100. -/
def FaceState.scrap (st : FaceState) (limit : Option Nat) :
    FaceState × List (Nat × Bool) :=
  let n := effLimit limit
  (⟨n + 1, st.posts⟩, (List.range n).map (fun j => (j, decide (j % 3 = 0))))

/-- MyFace.post: assigns post_id = self.i, increments self.i,
    stores the data under post_id and returns post_id. -/
def FaceState.post (st : FaceState) (data : Bool) : FaceState × Nat :=
  (⟨st.i + 1, dictSet st.posts st.i data⟩, st.i)

/-- MyFace.score: int(self.posts[post_id]) * 2 - 1; KeyError (none)
    when post_id was never stored by post. -/
def FaceState.score (st : FaceState) (pid : Nat) : Option Int :=
  (dictGet st.posts pid).map (fun b => (if b then 1 else 0) * 2 - 1)

/-! ## Sequences of face operations (for the uniqueness claims) -/

/-- One externally invoked face operation. -/
inductive FaceOp where
  | scrap (limit : Option Nat)
  | post (data : Bool)
  deriving DecidableEq, Repr

/-- Runs a sequence of face operations from a state, collecting every
    identifier the face hands out: identifiers yielded by scrap and
    identifiers returned by post, in order. -/
def runOps (st : FaceState) : List FaceOp → FaceState × List Nat
  | [] => (st, [])
  | FaceOp.scrap limit :: rest =>
      let r := st.scrap limit
      let next := runOps r.1 rest
      (next.1, r.2.map Prod.fst ++ next.2)
  | FaceOp.post d :: rest =>
      let r := st.post d
      let next := runOps r.1 rest
      (next.1, r.2 :: next.2)

/-- The identifiers returned by post operations alone, in order. -/
def postedIds (st : FaceState) : List FaceOp → List Nat
  | [] => []
  | FaceOp.scrap limit :: rest => postedIds (st.scrap limit).1 rest
  | FaceOp.post d :: rest =>
      let r := st.post d
      r.2 :: postedIds r.1 rest

/-! ## Model and modules (notebook cell 4) -/

/-- State of MyOfflineModule together with its Model: the model
    parameter p (read/written only through the clamping setter),
    the accumulated deltas and the learning rate alpha. -/
structure OfflineModule where
  p : ℚ
  deltas : List ℚ
  alpha : ℚ
  deriving DecidableEq, Repr

/-- MyOfflineModule.fit: p_est = sum(int(post) for post in posts) / len(posts);
    self.deltas.append(p_est - self.model.p). -/
def OfflineModule.fit (m : OfflineModule) (posts : List Bool) : OfflineModule :=
  let pEst := ((posts.map (fun b => (if b then (1 : ℚ) else 0))).sum) / posts.length
  ⟨m.p, m.deltas ++ [pEst - m.p], m.alpha⟩

/-- MyOfflineModule.step: self.model.p = self.model.p + self.alpha * mean(self.deltas)
    (through the clamping setter); self.deltas = []; return self.
    ZeroDivisionError (none) when deltas is empty. -/
def OfflineModule.step (m : OfflineModule) : Option OfflineModule :=
  (mean m.deltas).map (fun mu => ⟨clampP (m.p + m.alpha * mu), [], m.alpha⟩)

/-- State of MyOnlineModule together with its Model: parameter p, deltas,
    learning rate alpha, the dict self.posts of sampled posts, the sample
    counter self.i, and a tape of pre-drawn uniform values standing in for
    random.choices (a sample is True when the drawn value is below p). -/
structure OnlineModule where
  p : ℚ
  deltas : List ℚ
  alpha : ℚ
  posts : List (Nat × Bool)
  i : Nat
  tape : List ℚ
  deriving DecidableEq, Repr

/-- One draw of random.choices([True, False], weights=[p, 1 - p]):
    consumes the head of the tape, True when it falls below p. -/
def OnlineModule.draw (m : OnlineModule) : OnlineModule × Bool :=
  (⟨m.p, m.deltas, m.alpha, m.posts, m.i, m.tape.tail⟩,
   decide (m.tape.headI < m.p))

/-- MyOnlineModule.sample: draws n posts from the Bernoulli(p) model,
    stores each under a fresh internal id self.i and yields the
    (id, post) pairs. -/
def OnlineModule.sample (m : OnlineModule) : Nat → OnlineModule × List (Nat × Bool)
  | 0 => (m, [])
  | n + 1 =>
      let r := m.draw
      let b := r.2
      let m1 := r.1
      let m2 : OnlineModule :=
        ⟨m1.p, m1.deltas, m1.alpha, dictSet m1.posts m1.i b, m1.i + 1, m1.tape⟩
      let next := m2.sample n
      (next.1, (m1.i, b) :: next.2)

/-- The dict comprehension in MyOnlineModule.fit:
    scores = (self.posts[post_id]: score for post_id, score in scores.items());
    none when some post_id is absent from self.posts (KeyError). -/
def collapseScores (posts : List (Nat × Bool)) (d : List (Bool × ℚ)) :
    List (Nat × ℚ) → Option (List (Bool × ℚ))
  | [] => some d
  | (pid, s) :: rest =>
      match dictGet posts pid with
      | none => none
      | some b => collapseScores posts (dictSet d b s) rest

/-- MyOnlineModule.fit: keys the scores by post content, then
    delta = sum((int(x) - p) * score for x, score in scores.items()) / len(scores);
    appends delta. ZeroDivisionError (none) when the collapsed dict is empty,
    KeyError (none) when a post_id was never sampled. -/
def OnlineModule.fit (m : OnlineModule) (scores : List (Nat × ℚ)) :
    Option OnlineModule :=
  (collapseScores m.posts [] scores).bind (fun d =>
    if d.length = 0 then none
    else
      let delta :=
        ((d.map (fun kv => ((if kv.1 then (1 : ℚ) else 0) - m.p) * kv.2)).sum)
          / d.length
      some ⟨m.p, m.deltas ++ [delta], m.alpha, m.posts, m.i, m.tape⟩)

/-- MyOnlineModule.step: identical update to the offline step,
    through the clamping setter; ZeroDivisionError (none) on empty deltas. -/
def OnlineModule.step (m : OnlineModule) : Option OnlineModule :=
  (mean m.deltas).map (fun mu =>
    ⟨clampP (m.p + m.alpha * mu), [], m.alpha, m.posts, m.i, m.tape⟩)

/-! ## The training engine

The kilroylib implementation (kilroylib.training, kilroylib.data) is not
part of this snapshot; the definitions below are modelled from the
specification document and from the calling pattern of the notebook. -/

/-- An entry of the offline trainer's call trace. -/
inductive OfflineEvent where
  | scrapCall
  | fitCall (batch : List Bool)
  | stepCall
  deriving DecidableEq, Repr

/-- Modelled from the spec: the offline module contract — the module is
    "opaque to the trainers beyond this contract", exposing fit and step. -/
structure OfflineOps (M : Type) where
  fit : M → List Bool → M
  step : M → Option M

/-- Modelled from the spec: the batching done by PostsLoader — ordered
    groups of batch_size posts drawn in dataset order. -/
def chunksAux {α : Type} (bs : Nat) : Nat → List α → List (List α)
  | 0, _ => []
  | _, [] => []
  | fuel + 1, a :: rest => ((a :: rest).take bs) :: chunksAux bs fuel ((a :: rest).drop bs)

/-- The batches of a dataset for a given batch size. -/
def chunks {α : Type} (bs : Nat) (l : List α) : List (List α) :=
  chunksAux bs l.length l

/-- Modelled from the spec: a dataset holding the posts fetched by a single
    scrap call; later reads are served from this cache without touching the
    face again. -/
structure CachingDataset where
  cache : List Bool
  deriving DecidableEq, Repr

/-- Modelled from the spec: the two caching strategies offered by the
    dataset layer — MemoryCachingDatasetFactory and FileCachingDatasetFactory. -/
inductive DatasetFactoryKind where
  | memory
  | file
  deriving DecidableEq, Repr

/-- Modelled from the spec: the backing file written by the file-backed
    strategy, holding the serialized posts. -/
structure FileStore where
  contents : List Bool
  deriving DecidableEq, Repr

/-- Modelled from the spec: building the dataset from the posts fetched
    once — the memory strategy keeps them in memory, the file strategy
    writes them to a file and the dataset then reads them back from it. -/
def makeDataset : DatasetFactoryKind → List Bool → CachingDataset × Option FileStore
  | DatasetFactoryKind.memory, fetched => (⟨fetched⟩, none)
  | DatasetFactoryKind.file, fetched =>
      let fs : FileStore := ⟨fetched⟩
      (⟨fs.contents⟩, some fs)

/-- Modelled from the spec: the MaxEpochs stop condition — satisfied once
    the number of completed epochs reaches the bound. -/
def MaxEpochs (k : Nat) : Nat → Bool := fun epochs => decide (k ≤ epochs)

/-- Runs the "fit on a batch, then step the model" cycles of one epoch,
    one cycle per batch, recording the calls; a failing step aborts. -/
def runBatches {M : Type} (ops : OfflineOps M) (batches : List (List Bool)) (m : M) :
    Option (M × List OfflineEvent) :=
  match batches with
  | [] => some (m, [])
  | b :: rest =>
      match ops.step (ops.fit m b) with
      | none => none
      | some m1 =>
          (runBatches ops rest m1).map (fun r =>
            (r.1, OfflineEvent.fitCall b :: OfflineEvent.stepCall :: r.2))

/-- Modelled from the spec: the offline training loop — each iteration
    queries the stop condition with the number of completed epochs, and
    while it is unsatisfied runs one epoch of fit/step cycles over the
    batches; fuel bounds the recursion. -/
def offlineLoop {M : Type} (ops : OfflineOps M) (stop : Nat → Bool)
    (batches : List (List Bool)) : Nat → Nat → M → Option (M × List OfflineEvent)
  | 0, _, _ => none
  | fuel + 1, epochs, m =>
      if stop epochs then some (m, [])
      else
        match runBatches ops batches m with
        | none => none
        | some r =>
            (offlineLoop ops stop batches fuel (epochs + 1) r.1).map
              (fun r2 => (r2.1, r.2 ++ r2.2))

/-- Modelled from the spec: OfflineTrainer.train(module, face) — scraps the
    historical posts once into a caching dataset built by the chosen
    factory, then drives "fit on a batch, then step" cycles epoch after
    epoch until the stop condition is satisfied, returning the trained
    module (with the updated face and the call trace). -/
def offlineTrain {M : Type} (ops : OfflineOps M) (stop : Nat → Bool)
    (kind : DatasetFactoryKind) (bs : Nat) (fuel : Nat)
    (face : FaceState) (m : M) :
    Option (M × FaceState × List OfflineEvent) :=
  let sc := face.scrap none
  let ds := (makeDataset kind (sc.2.map Prod.snd)).1
  (offlineLoop ops stop (chunks bs ds.cache) fuel 0 m).map
    (fun r => (r.1, sc.1, OfflineEvent.scrapCall :: r.2))

/-- An entry of the online trainer's call trace. -/
inductive OnlineEvent where
  | waitCall
  | sampleCall (n : Nat)
  | postCall (data : Bool) (pid : Nat)
  | scoreCall (pid : Nat) (value : Int)
  | fitCall (scores : List (Nat × ℚ))
  | stepCall
  deriving DecidableEq, Repr

/-- Modelled from the spec: the online module contract — sample, fit and
    step, all the trainer may use. -/
structure OnlineOps (M : Type) where
  sample : M → Nat → M × List (Nat × Bool)
  fit : M → List (Nat × ℚ) → Option M
  step : M → Option M

/-- Publishes each sampled candidate via face.post, pairing the module's
    candidate id with the identifier the face returns. -/
def postAll (face : FaceState) : List (Nat × Bool) →
    FaceState × List (Nat × Nat) × List OnlineEvent
  | [] => (face, [], [])
  | (iid, data) :: rest =>
      let r := face.post data
      let next := postAll r.1 rest
      (next.1, (iid, r.2) :: next.2.1, OnlineEvent.postCall data r.2 :: next.2.2)

/-- Collects the score of each published post via face.score, keyed back by
    the module's candidate id; a KeyError aborts. -/
def scoreAll (face : FaceState) : List (Nat × Nat) →
    Option (List (Nat × ℚ) × List OnlineEvent)
  | [] => some ([], [])
  | (iid, fid) :: rest =>
      match face.score fid with
      | none => none
      | some v =>
          (scoreAll face rest).map (fun r =>
            ((iid, (v : ℚ)) :: r.1, OnlineEvent.scoreCall fid v :: r.2))

/-- Modelled from the spec: one online cycle — the scheduler gates the
    pacing (recorded as a wait event; real time is abstracted away), then
    the trainer samples n candidate posts from the module, publishes each
    via face.post, collects the scores via face.score, fits the module on
    the scores and steps it. -/
def onlineCycle {M : Type} (ops : OnlineOps M) (n : Nat) (face : FaceState) (m : M) :
    Option (M × FaceState × List OnlineEvent) :=
  let s := ops.sample m n
  let pr := postAll face s.2
  (scoreAll pr.1 pr.2.1).bind (fun sc =>
    (ops.fit s.1 sc.1).bind (fun m1 =>
      (ops.step m1).map (fun m2 =>
        (m2, pr.1,
          OnlineEvent.waitCall :: OnlineEvent.sampleCall n :: pr.2.2
            ++ sc.2 ++ [OnlineEvent.fitCall sc.1, OnlineEvent.stepCall]))))

/-- Modelled from the spec: the MaxUpdates stop condition — satisfied once
    the number of completed updates reaches the bound. -/
def MaxUpdates (k : Nat) : Nat → Bool := fun updates => decide (k ≤ updates)

/-- Modelled from the spec: the online training loop — each iteration
    queries the stop condition exactly once, with the number of completed
    updates, and while it is unsatisfied runs one cycle.  Returns the
    trained module, the face, the call trace and the number of
    stop-condition queries made. -/
def onlineLoop {M : Type} (ops : OnlineOps M) (stop : Nat → Bool) (n : Nat) :
    Nat → Nat → FaceState → M → Option (M × FaceState × List OnlineEvent × Nat)
  | 0, _, _, _ => none
  | fuel + 1, updates, face, m =>
      if stop updates then some (m, face, [], 1)
      else
        match onlineCycle ops n face m with
        | none => none
        | some r =>
            (onlineLoop ops stop n fuel (updates + 1) r.2.1 r.1).map
              (fun r2 => (r2.1, r2.2.1, r.2.2 ++ r2.2.2.1, r2.2.2.2 + 1))

/-- Modelled from the spec: OnlineTrainer.train(module, face) — drives
    scheduler-gated sample/post/score/fit/step cycles until the stop
    condition is satisfied, returning the trained module. -/
def onlineTrain {M : Type} (ops : OnlineOps M) (stop : Nat → Bool) (n : Nat)
    (fuel : Nat) (face : FaceState) (m : M) :
    Option (M × FaceState × List OnlineEvent × Nat) :=
  onlineLoop ops stop n fuel 0 face m

/-- The notebook offline module, seen through the module contract. -/
def myOfflineOps : OfflineOps OfflineModule :=
  ⟨OfflineModule.fit, OfflineModule.step⟩

/-- The notebook online module, seen through the module contract. -/
def myOnlineOps : OnlineOps OnlineModule :=
  ⟨OnlineModule.sample, OnlineModule.fit, OnlineModule.step⟩

/-- Replays an offline trace on a module using only the module contract:
    fit and step calls touch the module, nothing else does. -/
def applyOfflineEvents {M : Type} (ops : OfflineOps M) (m : M) :
    List OfflineEvent → Option M
  | [] => some m
  | OfflineEvent.scrapCall :: rest => applyOfflineEvents ops m rest
  | OfflineEvent.fitCall b :: rest => applyOfflineEvents ops (ops.fit m b) rest
  | OfflineEvent.stepCall :: rest =>
      match ops.step m with
      | none => none
      | some m1 => applyOfflineEvents ops m1 rest

/-- Replays an online trace on a module using only the module contract:
    sample, fit and step calls touch the module, nothing else does. -/
def applyOnlineEvents {M : Type} (ops : OnlineOps M) (m : M) :
    List OnlineEvent → Option M
  | [] => some m
  | OnlineEvent.waitCall :: rest => applyOnlineEvents ops m rest
  | OnlineEvent.postCall _ _ :: rest => applyOnlineEvents ops m rest
  | OnlineEvent.scoreCall _ _ :: rest => applyOnlineEvents ops m rest
  | OnlineEvent.sampleCall n :: rest => applyOnlineEvents ops (ops.sample m n).1 rest
  | OnlineEvent.fitCall sc :: rest =>
      match ops.fit m sc with
      | none => none
      | some m1 => applyOnlineEvents ops m1 rest
  | OnlineEvent.stepCall :: rest =>
      match ops.step m with
      | none => none
      | some m1 => applyOnlineEvents ops m1 rest

/-! ## Helper lemmas -/

theorem dictGet_dictSet_self {κ γ : Type} [DecidableEq κ]
    (d : List (κ × γ)) (k : κ) (v : γ) :
    dictGet (dictSet d k v) k = some v := by
  induction d with
  | nil => simp [dictSet, dictGet]
  | cons kv rest ih =>
      by_cases h : kv.1 = k
      · simp [dictSet, h, dictGet]
      · simp [dictSet, h, dictGet, ih]

theorem dictGet_dictSet_ne {κ γ : Type} [DecidableEq κ]
    (d : List (κ × γ)) (k x : κ) (v : γ) (hx : x ≠ k) :
    dictGet (dictSet d k v) x = dictGet d x := by
  have hkx : ¬ k = x := fun h => hx h.symm
  induction d with
  | nil => simp [dictSet, dictGet, hkx]
  | cons kv rest ih =>
      by_cases h : kv.1 = k
      · simp [dictSet, h, dictGet, hkx]
      · simp [dictSet, h, dictGet, ih]

theorem dictGet_dictSet_isSome {κ γ : Type} [DecidableEq κ]
    (d : List (κ × γ)) (k x : κ) (v : γ) :
    (dictGet (dictSet d k v) x).isSome ↔ x = k ∨ (dictGet d x).isSome := by
  by_cases hx : x = k
  · subst hx; simp [dictGet_dictSet_self]
  · simp [dictGet_dictSet_ne d k x v hx, hx]

theorem dictSet_ne_nil {κ γ : Type} [DecidableEq κ]
    (d : List (κ × γ)) (k : κ) (v : γ) : dictSet d k v ≠ [] := by
  cases d with
  | nil => simp [dictSet]
  | cons kv rest => by_cases h : kv.1 = k <;> simp [dictSet, h]

theorem mean_eq_none_iff (l : List ℚ) : mean l = none ↔ l = [] := by
  simp [mean, List.length_eq_zero]

theorem clampP_nonneg (v : ℚ) : 0 ≤ clampP v := by
  unfold clampP pymax pymin
  split_ifs <;> linarith

theorem clampP_le_one (v : ℚ) : clampP v ≤ 1 := by
  unfold clampP pymax pymin
  split_ifs <;> linarith

theorem clampP_ge_of_le (p v : ℚ) (h0 : 0 ≤ p) (h1 : p ≤ 1) (hv : p ≤ v) :
    p ≤ clampP v := by
  unfold clampP pymax pymin
  split_ifs <;> linarith

/-! ## Claim theorems -/

/-- C3: the demonstrated Face calling convention — scrap(limit) yields
    exactly n pairs (i, i % 3 == 0) for i = 0..n-1, where n is limit when
    limit is truthy and 100 otherwise; post(data) stores the content under
    the identifier it returns; score(post_id) returns +1 when the stored
    content is True and -1 when it is False. -/
theorem face_calling_convention :
    (∀ (st : FaceState) (limit : Option Nat),
        (st.scrap limit).2 =
          (List.range (effLimit limit)).map (fun i => (i, decide (i % 3 = 0))) ∧
        (st.scrap limit).2.length = effLimit limit)
    ∧ effLimit none = 100 ∧ effLimit (some 0) = 100
    ∧ (∀ k : Nat, k ≠ 0 → effLimit (some k) = k)
    ∧ (∀ (st : FaceState) (d : Bool),
        dictGet (st.post d).1.posts (st.post d).2 = some d)
    ∧ (∀ (st : FaceState) (pid : Nat) (b : Bool),
        dictGet st.posts pid = some b →
          st.score pid = some (if b then 1 else -1)) := by
  refine ⟨fun st limit => ⟨rfl, by simp [FaceState.scrap]⟩, rfl, rfl,
    fun k hk => by simp [effLimit, hk], fun st d => ?_, fun st pid b h => ?_⟩
  · simp [FaceState.post, dictGet_dictSet_self]
  · cases b <;> simp [FaceState.score, h]

/-- C3 witness: the contract evaluated at concrete inputs — effLimit of a
    truthy limit, and a score of a concrete stored post. -/
theorem face_calling_convention_witness :
    effLimit (some 7) = 7 ∧
      FaceState.score ⟨3, [(2, true)]⟩ 2 = some 1 := by
  refine ⟨face_calling_convention.2.2.2.1 7 (by decide), ?_⟩
  have h := face_calling_convention.2.2.2.2.2 ⟨3, [(2, true)]⟩ 2 true (by decide)
  simpa using h

/-- C9: the model parameter always stays in [0, 1] — the clamping setter
    lands in [0, 1] for every assigned value, the construction value 0.5 is
    in [0, 1], every successful step of either module leaves p in [0, 1],
    and no other module operation (offline fit, online fit, online sample)
    changes p; hence the invariant holds from construction through both
    trainings. -/
theorem p_stays_in_unit_interval :
    (∀ v : ℚ, 0 ≤ clampP v ∧ clampP v ≤ 1)
    ∧ (0 ≤ modelInitP ∧ modelInitP ≤ 1)
    ∧ (∀ (m m' : OfflineModule), m.step = some m' → 0 ≤ m'.p ∧ m'.p ≤ 1)
    ∧ (∀ (m m' : OnlineModule), m.step = some m' → 0 ≤ m'.p ∧ m'.p ≤ 1)
    ∧ (∀ (m : OfflineModule) (b : List Bool), (m.fit b).p = m.p)
    ∧ (∀ (m m' : OnlineModule) (sc : List (Nat × ℚ)),
        m.fit sc = some m' → m'.p = m.p)
    ∧ (∀ (m : OnlineModule) (n : Nat), ((m.sample n).1).p = m.p) := by
  refine ⟨fun v => ⟨clampP_nonneg v, clampP_le_one v⟩,
    ⟨by norm_num [modelInitP], by norm_num [modelInitP]⟩,
    fun m m' h => ?_, fun m m' h => ?_, fun m b => rfl,
    fun m m' sc h => ?_, fun m n => ?_⟩
  · simp only [OfflineModule.step, Option.map_eq_some'] at h
    obtain ⟨mu, _, rfl⟩ := h
    exact ⟨clampP_nonneg _, clampP_le_one _⟩
  · simp only [OnlineModule.step, Option.map_eq_some'] at h
    obtain ⟨mu, _, rfl⟩ := h
    exact ⟨clampP_nonneg _, clampP_le_one _⟩
  · simp only [OnlineModule.fit, Option.bind_eq_some] at h
    obtain ⟨d, _, hd⟩ := h
    split at hd
    · exact absurd hd (by simp)
    · cases hd; rfl
  · induction n generalizing m with
    | zero => rfl
    | succ k ih => simp [OnlineModule.sample, OnlineModule.draw, ih]

/-- C9 witness: a concrete step whose raw update value 3 exceeds 1 still
    lands in [0, 1]. -/
theorem p_stays_in_unit_interval_witness :
    0 ≤ (OfflineModule.mk 1 [] 1).p ∧ (OfflineModule.mk 1 [] 1).p ≤ 1 :=
  p_stays_in_unit_interval.2.2.1 ⟨2, [1], 1⟩ ⟨1, [], 1⟩
    (by simp [OfflineModule.step, mean, clampP, pymin, pymax])

/-- C10: step raises ZeroDivisionError exactly when no fit has occurred
    since the previous step (deltas empty); on non-empty deltas it
    succeeds, resets deltas to [] and returns the module (all state other
    than p and deltas unchanged). -/
theorem step_zero_division_iff :
    (∀ m : OfflineModule, m.step = none ↔ m.deltas = [])
    ∧ (∀ m : OnlineModule, m.step = none ↔ m.deltas = [])
    ∧ (∀ m : OfflineModule, m.deltas ≠ [] →
        ∃ m', m.step = some m' ∧ m'.deltas = [] ∧ m'.alpha = m.alpha)
    ∧ (∀ m : OnlineModule, m.deltas ≠ [] →
        ∃ m', m.step = some m' ∧ m'.deltas = [] ∧ m'.alpha = m.alpha
          ∧ m'.posts = m.posts ∧ m'.i = m.i ∧ m'.tape = m.tape) := by
  refine ⟨fun m => ?_, fun m => ?_, fun m h => ?_, fun m h => ?_⟩
  · simp [OfflineModule.step, mean, List.length_eq_zero]
  · simp [OnlineModule.step, mean, List.length_eq_zero]
  · refine ⟨⟨clampP (m.p + m.alpha * (m.deltas.sum / m.deltas.length)),
      [], m.alpha⟩, ?_, rfl, rfl⟩
    simp [OfflineModule.step, mean, h, List.length_eq_zero]
  · refine ⟨⟨clampP (m.p + m.alpha * (m.deltas.sum / m.deltas.length)),
      [], m.alpha, m.posts, m.i, m.tape⟩, ?_, rfl, rfl, rfl, rfl, rfl⟩
    simp [OnlineModule.step, mean, h, List.length_eq_zero]

/-- C10 witness: a concrete step on non-empty deltas succeeds and clears
    the deltas. -/
theorem step_zero_division_iff_witness :
    ∃ m', (OfflineModule.mk 0 [1] 1).step = some m' ∧ m'.deltas = [] ∧
      m'.alpha = (OfflineModule.mk 0 [1] 1).alpha :=
  step_zero_division_iff.2.2.1 ⟨0, [1], 1⟩ (by simp)

theorem runOps_posts_only (ds : List Bool) :
    ∀ st : FaceState, (runOps st (ds.map FaceOp.post)).2 =
      List.range' st.i ds.length := by
  induction ds with
  | nil => intro st; rfl
  | cons d rest ih =>
      intro st
      simp [runOps, FaceState.post, ih, List.range'_succ]

/-- C4 counterexample: identifier uniqueness does not hold over every
    sequence of scrap and post operations — posting first (returning id 0)
    and then scrapping with limit 1 (yielding id 0 again) repeats an
    identifier. -/
theorem ids_unique_counterexample :
    ¬ ((runOps FaceState.init
        [FaceOp.post true, FaceOp.scrap (some 1)]).2).Nodup := by
  decide

/-- C4 (amended): identifiers are pairwise distinct over every operation
    sequence of the training-run pattern — at most one scrap, performed
    before all posts: scrap yields 0..n-1 and sets the counter to n+1, and
    each later post returns the counter and increments it. -/
theorem ids_unique_training_pattern :
    ∀ (limit : Option Nat) (ds : List Bool),
      ((runOps FaceState.init
          (FaceOp.scrap limit :: ds.map FaceOp.post)).2).Nodup
      ∧ ((runOps FaceState.init (ds.map FaceOp.post)).2).Nodup := by
  intro limit ds
  constructor
  · have h : (runOps FaceState.init
        (FaceOp.scrap limit :: ds.map FaceOp.post)).2 =
        List.range (effLimit limit) ++
          List.range' (effLimit limit + 1) ds.length := by
      simp only [runOps, FaceState.scrap, runOps_posts_only, FaceState.init,
        List.map_map]
      congr 1
      exact List.map_id _ ▸ (List.map_congr_left (fun a _ => rfl))
    rw [h, List.nodup_append]
    refine ⟨List.nodup_range _, List.nodup_range' _ _, ?_⟩
    intro a ha hb
    rw [List.mem_range] at ha
    rw [List.mem_range'] at hb
    omega
  · rw [runOps_posts_only]
    exact List.nodup_range' _ _

theorem score_isSome_iff_aux (ops : List FaceOp) :
    ∀ (st : FaceState) (pid : Nat),
      (((runOps st ops).1.score pid).isSome ↔
        pid ∈ postedIds st ops ∨ (st.score pid).isSome) := by
  induction ops with
  | nil => simp [runOps, postedIds]
  | cons op rest ih =>
      intro st pid
      cases op with
      | scrap limit =>
          have h := ih (st.scrap limit).1 pid
          simpa [runOps, postedIds, FaceState.scrap, FaceState.score] using h
      | post d =>
          have h1 := ih (st.post d).1 pid
          have h2 : (((st.post d).1).score pid).isSome ↔
              pid = st.i ∨ (st.score pid).isSome := by
            simp [FaceState.post, FaceState.score, dictGet_dictSet_isSome]
          simp only [runOps, postedIds]
          rw [h1, h2]
          simp [FaceState.post]
          tauto

/-- C5: score is defined exactly for previously posted identifiers — over
    any run of scrap/post operations from a fresh face, score(pid) returns
    a value precisely when pid was returned by some post operation of the
    run, and raises KeyError otherwise, including for identifiers that
    were only yielded by scrap. -/
theorem score_defined_iff_posted :
    ∀ (ops : List FaceOp) (pid : Nat),
      (((runOps FaceState.init ops).1.score pid).isSome ↔
        pid ∈ postedIds FaceState.init ops) := by
  intro ops pid
  have h := score_isSome_iff_aux ops FaceState.init pid
  simpa [FaceState.init, FaceState.score, dictGet] using h

theorem mem_dictSet {κ γ : Type} [DecidableEq κ]
    (d : List (κ × γ)) (k : κ) (v : γ) (x : κ × γ) (hx : x ∈ dictSet d k v) :
    x = (k, v) ∨ x ∈ d := by
  induction d with
  | nil =>
      simp only [dictSet, List.mem_singleton] at hx
      exact Or.inl hx
  | cons kv rest ih =>
      by_cases h : kv.1 = k
      · simp only [dictSet, h, if_pos rfl] at hx
        rcases List.mem_cons.mp hx with h1 | h1
        · exact Or.inl h1
        · exact Or.inr (List.mem_cons_of_mem _ h1)
      · simp only [dictSet, h, if_neg h] at hx
        rcases List.mem_cons.mp hx with h1 | h1
        · exact Or.inr (h1 ▸ List.mem_cons_self _ _)
        · rcases ih h1 with h2 | h2
          · exact Or.inl h2
          · exact Or.inr (List.mem_cons_of_mem _ h2)

theorem collapse_total (posts : List (Nat × Bool)) :
    ∀ (scores : List (Nat × ℚ)) (d : List (Bool × ℚ)),
      (∀ pr ∈ scores, (dictGet posts pr.1).isSome) →
      ∃ d', collapseScores posts d scores = some d' := by
  intro scores
  induction scores with
  | nil => exact fun d _ => ⟨d, rfl⟩
  | cons pr rest ih =>
      intro d hs
      have hh : (dictGet posts pr.1).isSome := hs pr (List.mem_cons_self _ _)
      rcases Option.isSome_iff_exists.mp hh with ⟨b, hb⟩
      rcases ih (dictSet d b pr.2)
          (fun q hq => hs q (List.mem_cons_of_mem _ hq)) with ⟨d', hd'⟩
      exact ⟨d', by simp [collapseScores, hb, hd']⟩

theorem collapse_ne_nil (posts : List (Nat × Bool)) :
    ∀ (scores : List (Nat × ℚ)) (d d' : List (Bool × ℚ)),
      collapseScores posts d scores = some d' → d ≠ [] → d' ≠ [] := by
  intro scores
  induction scores with
  | nil => intro d d' h hd; cases h; exact hd
  | cons pr rest ih =>
      intro d d' h hd
      simp only [collapseScores] at h
      cases hb : dictGet posts pr.1 with
      | none => rw [hb] at h; cases h
      | some b =>
          rw [hb] at h
          exact ih _ _ h (dictSet_ne_nil _ _ _)

theorem collapse_good (posts : List (Nat × Bool)) :
    ∀ (scores : List (Nat × ℚ)) (d d' : List (Bool × ℚ)),
      collapseScores posts d scores = some d' →
      (∀ kv ∈ d, kv.2 = (if kv.1 then (1 : ℚ) else -1)) →
      (∀ pr ∈ scores, ∃ b, dictGet posts pr.1 = some b ∧
          pr.2 = (if b then (1 : ℚ) else -1)) →
      ∀ kv ∈ d', kv.2 = (if kv.1 then (1 : ℚ) else -1) := by
  intro scores
  induction scores with
  | nil => intro d d' h hd _; cases h; exact hd
  | cons pr rest ih =>
      intro d d' h hd hs
      rcases hs pr (List.mem_cons_self _ _) with ⟨b, hb, hval⟩
      simp only [collapseScores, hb] at h
      refine ih (dictSet d b pr.2) d' h ?_
        (fun q hq => hs q (List.mem_cons_of_mem _ hq))
      intro kv hkv
      rcases mem_dictSet _ _ _ _ hkv with h1 | h1
      · rw [h1]; exact hval
      · exact hd kv h1

/-- C7: under the demonstrated scoring (content True scored +1, content
    False scored -1) every delta accumulated by MyOnlineModule.fit is
    non-negative — a True sample contributes 1 - p and a False sample
    contributes p — and, with p in [0, 1] and a non-negative learning
    rate, each step sets p to a value greater than or equal to its
    previous value. -/
theorem online_delta_nonneg_monotone :
    (∀ (m : OnlineModule) (scores : List (Nat × ℚ)),
        0 ≤ m.p → m.p ≤ 1 → scores ≠ [] →
        (∀ pr ∈ scores, ∃ b, dictGet m.posts pr.1 = some b ∧
            pr.2 = (if b then (1 : ℚ) else -1)) →
        ∃ m' δ, m.fit scores = some m' ∧ m'.deltas = m.deltas ++ [δ] ∧ 0 ≤ δ)
    ∧ (∀ (m m' : OnlineModule), 0 ≤ m.p → m.p ≤ 1 → 0 ≤ m.alpha →
        (∀ δ ∈ m.deltas, 0 ≤ δ) → m.step = some m' → m.p ≤ m'.p) := by
  constructor
  · intro m scores hp0 hp1 hne hs
    have htot : ∀ pr ∈ scores, (dictGet m.posts pr.1).isSome := by
      intro pr hpr
      rcases hs pr hpr with ⟨b, hb, _⟩
      simp [hb]
    rcases collapse_total m.posts scores [] htot with ⟨d, hd⟩
    have hdne : d ≠ [] := by
      cases scores with
      | nil => exact absurd rfl hne
      | cons pr rest =>
          rcases hs pr (List.mem_cons_self _ _) with ⟨b, hb, _⟩
          simp only [collapseScores, hb] at hd
          exact collapse_ne_nil m.posts rest _ d hd (dictSet_ne_nil _ _ _)
    have hgood := collapse_good m.posts scores [] d hd (by simp) hs
    refine ⟨⟨m.p, m.deltas ++ [((d.map (fun kv =>
          ((if kv.1 then (1 : ℚ) else 0) - m.p) * kv.2)).sum) / d.length],
        m.alpha, m.posts, m.i, m.tape⟩,
      ((d.map (fun kv =>
          ((if kv.1 then (1 : ℚ) else 0) - m.p) * kv.2)).sum) / d.length,
      ?_, rfl, ?_⟩
    · simp only [OnlineModule.fit, hd, Option.some_bind]
      rw [if_neg (by simpa [List.length_eq_zero] using hdne)]
    · apply div_nonneg
      · apply List.sum_nonneg
        intro x hx
        rcases List.mem_map.mp hx with ⟨kv, hkv, rfl⟩
        have := hgood kv hkv
        cases hb : kv.1 with
        | true => rw [this, hb]; simp; linarith
        | false => rw [this, hb]; simp; linarith
      · exact Nat.cast_nonneg _
  · intro m m' hp0 hp1 ha hδ h
    simp only [OnlineModule.step, mean, Option.map_eq_some'] at h
    rcases h with ⟨mu, hmu, rfl⟩
    rw [if_neg] at hmu
    · cases hmu
      have hsum : 0 ≤ m.deltas.sum := List.sum_nonneg hδ
      have hmu0 : 0 ≤ m.deltas.sum / (m.deltas.length : ℚ) :=
        div_nonneg hsum (Nat.cast_nonneg _)
      exact clampP_ge_of_le m.p _ hp0 hp1 (by nlinarith)
    · intro hlen
      rw [List.length_eq_zero] at hlen
      simp [hlen] at hmu

/-- C7 witness: a concrete fit on one sample of content True scored +1
    accumulates the non-negative delta 1/2, and a concrete step on
    non-negative deltas does not decrease p. -/
theorem online_delta_nonneg_monotone_witness :
    (∃ m' δ, (OnlineModule.mk (1/2) [] (1/10) [(0, true)] 1 []).fit [(0, 1)] =
        some m' ∧ m'.deltas = [] ++ [δ] ∧ 0 ≤ δ)
    ∧ (1 : ℚ)/2 ≤ (OnlineModule.mk (11/20) [] (1/10) [] 0 []).p := by
  constructor
  · exact online_delta_nonneg_monotone.1 ⟨1/2, [], 1/10, [(0, true)], 1, []⟩
      [(0, 1)] (by norm_num) (by norm_num) (by simp)
      (by
        intro pr hpr
        simp only [List.mem_singleton] at hpr
        exact ⟨true, by simp [hpr, dictGet]⟩)
  · exact online_delta_nonneg_monotone.2 ⟨1/2, [1/2], 1/10, [], 0, []⟩
      ⟨11/20, [], 1/10, [], 0, []⟩ (by norm_num) (by norm_num) (by norm_num)
      (by intro δ hδ; simp at hδ; rw [hδ]; norm_num)
      (by simp [OnlineModule.step, mean, clampP, pymin, pymax]; norm_num)

/-- The pair of calls of one offline cycle: fit on the batch, then step. -/
def cycleEvents (b : List Bool) : List OfflineEvent :=
  [OfflineEvent.fitCall b, OfflineEvent.stepCall]

/-- How many scrap invocations a trace records. -/
def countScrap : List OfflineEvent → Nat
  | [] => 0
  | OfflineEvent.scrapCall :: rest => countScrap rest + 1
  | OfflineEvent.fitCall _ :: rest => countScrap rest
  | OfflineEvent.stepCall :: rest => countScrap rest

/-- The contents scraped in the demonstrated offline run: the 100 posts
    MyFace yields for limit None. -/
def demoPosts : List Bool := (FaceState.init.scrap none).2.map Prod.snd

theorem offline_cycle_total (m : OfflineModule) (b : List Bool) :
    ∃ m', (m.fit b).step = some m' := by
  refine ⟨⟨clampP (m.p + m.alpha * (((m.fit b).deltas).sum /
      ((m.fit b).deltas).length)), [], m.alpha⟩, ?_⟩
  simp [OfflineModule.step, OfflineModule.fit, mean]

theorem runBatches_total {M : Type} (ops : OfflineOps M)
    (h : ∀ (m : M) (b : List Bool), ∃ m', ops.step (ops.fit m b) = some m') :
    ∀ (batches : List (List Bool)) (m : M),
      ∃ mf, runBatches ops batches m = some (mf, batches.flatMap cycleEvents) := by
  intro batches
  induction batches with
  | nil => intro m; exact ⟨m, rfl⟩
  | cons b rest ih =>
      intro m
      rcases h m b with ⟨m1, hm1⟩
      rcases ih m1 with ⟨mf, hmf⟩
      refine ⟨mf, ?_⟩
      simp [runBatches, hm1, hmf, cycleEvents]

theorem offlineLoop_maxEpochs {M : Type} (ops : OfflineOps M)
    (h : ∀ (m : M) (b : List Bool), ∃ m', ops.step (ops.fit m b) = some m')
    (batches : List (List Bool)) :
    ∀ (fuel k e : Nat) (m : M), e ≤ k → k - e < fuel →
      ∃ mf, offlineLoop ops (MaxEpochs k) batches fuel e m =
        some (mf, List.flatten (List.replicate (k - e)
          (batches.flatMap cycleEvents))) := by
  intro fuel
  induction fuel with
  | zero => intro k e m _ hf; omega
  | succ f ih =>
      intro k e m hek hf
      by_cases hstop : k ≤ e
      · have he : e = k := le_antisymm hek hstop
        subst he
        exact ⟨m, by simp [offlineLoop, MaxEpochs, Nat.sub_self]⟩
      · rcases runBatches_total ops h batches m with ⟨m1, hm1⟩
        rcases ih k (e + 1) m1 (by omega) (by omega) with ⟨mf, hmf⟩
        refine ⟨mf, ?_⟩
        have hrep : k - e = (k - (e + 1)) + 1 := by omega
        simp only [offlineLoop, MaxEpochs]
        rw [if_neg (by simpa using hstop), hm1]
        simp only [Option.map_eq_some']
        refine ⟨(mf, List.flatten (List.replicate (k - (e + 1))
          (batches.flatMap cycleEvents))), hmf, ?_⟩
        rw [hrep, List.replicate_succ]
        simp

theorem applyOfflineEvents_append {M : Type} (ops : OfflineOps M) :
    ∀ (t1 t2 : List OfflineEvent) (m : M),
      applyOfflineEvents ops m (t1 ++ t2) =
        (applyOfflineEvents ops m t1).bind
          (fun m1 => applyOfflineEvents ops m1 t2) := by
  intro t1
  induction t1 with
  | nil => intro t2 m; simp [applyOfflineEvents]
  | cons e rest ih =>
      intro t2 m
      cases e with
      | scrapCall => simpa [applyOfflineEvents] using ih t2 m
      | fitCall b => simpa [applyOfflineEvents] using ih t2 (ops.fit m b)
      | stepCall =>
          simp only [List.cons_append, applyOfflineEvents]
          cases ops.step m with
          | none => rfl
          | some m1 => exact ih t2 m1

theorem runBatches_apply {M : Type} (ops : OfflineOps M) :
    ∀ (batches : List (List Bool)) (m mf : M) (tr : List OfflineEvent),
      runBatches ops batches m = some (mf, tr) →
      applyOfflineEvents ops m tr = some mf := by
  intro batches
  induction batches with
  | nil => intro m mf tr h; cases h; rfl
  | cons b rest ih =>
      intro m mf tr h
      simp only [runBatches] at h
      cases hs : ops.step (ops.fit m b) with
      | none => rw [hs] at h; cases h
      | some m1 =>
          rw [hs] at h
          simp only [Option.map_eq_some'] at h
          rcases h with ⟨⟨mf2, tr2⟩, hrun, heq⟩
          cases heq
          simp only [applyOfflineEvents, hs]
          exact ih m1 mf2 tr2 hrun

theorem offlineLoop_apply {M : Type} (ops : OfflineOps M) (stop : Nat → Bool)
    (batches : List (List Bool)) :
    ∀ (fuel e : Nat) (m mf : M) (tr : List OfflineEvent),
      offlineLoop ops stop batches fuel e m = some (mf, tr) →
      applyOfflineEvents ops m tr = some mf := by
  intro fuel
  induction fuel with
  | zero => intro e m mf tr h; cases h
  | succ f ih =>
      intro e m mf tr h
      simp only [offlineLoop] at h
      by_cases hstop : stop e = true
      · rw [if_pos hstop] at h; cases h; rfl
      · rw [if_neg hstop] at h
        cases hrb : runBatches ops batches m with
        | none => rw [hrb] at h; cases h
        | some r =>
            obtain ⟨m1, tr1⟩ := r
            rw [hrb] at h
            simp only [Option.map_eq_some'] at h
            rcases h with ⟨⟨mf2, tr2⟩, hloop, heq⟩
            cases heq
            rw [applyOfflineEvents_append, runBatches_apply ops batches m m1 tr1 hrb]
            exact ih (e + 1) m1 mf2 tr2 hloop

theorem offlineTrain_apply {M : Type} (ops : OfflineOps M) (stop : Nat → Bool)
    (kind : DatasetFactoryKind) (bs fuel : Nat) (face : FaceState) (m mf : M)
    (facef : FaceState) (tr : List OfflineEvent)
    (h : offlineTrain ops stop kind bs fuel face m = some (mf, facef, tr)) :
    applyOfflineEvents ops m tr = some mf := by
  simp only [offlineTrain, Option.map_eq_some'] at h
  rcases h with ⟨⟨mf2, tr2⟩, hloop, heq⟩
  cases heq
  simp only [applyOfflineEvents]
  exact offlineLoop_apply ops stop _ fuel 0 m mf2 tr2 hloop

theorem countScrap_append (t1 t2 : List OfflineEvent) :
    countScrap (t1 ++ t2) = countScrap t1 + countScrap t2 := by
  induction t1 with
  | nil => simp [countScrap]
  | cons e rest ih =>
      cases e <;> simp [countScrap, ih]
      all_goals omega

theorem countScrap_runBatches {M : Type} (ops : OfflineOps M) :
    ∀ (batches : List (List Bool)) (m mf : M) (tr : List OfflineEvent),
      runBatches ops batches m = some (mf, tr) → countScrap tr = 0 := by
  intro batches
  induction batches with
  | nil => intro m mf tr h; cases h; rfl
  | cons b rest ih =>
      intro m mf tr h
      simp only [runBatches] at h
      cases hs : ops.step (ops.fit m b) with
      | none => rw [hs] at h; cases h
      | some m1 =>
          rw [hs] at h
          simp only [Option.map_eq_some'] at h
          rcases h with ⟨⟨mf2, tr2⟩, hrun, heq⟩
          cases heq
          simpa [countScrap] using ih m1 mf2 tr2 hrun

theorem countScrap_offlineLoop {M : Type} (ops : OfflineOps M)
    (stop : Nat → Bool) (batches : List (List Bool)) :
    ∀ (fuel e : Nat) (m mf : M) (tr : List OfflineEvent),
      offlineLoop ops stop batches fuel e m = some (mf, tr) →
      countScrap tr = 0 := by
  intro fuel
  induction fuel with
  | zero => intro e m mf tr h; cases h
  | succ f ih =>
      intro e m mf tr h
      simp only [offlineLoop] at h
      by_cases hstop : stop e = true
      · rw [if_pos hstop] at h; cases h; rfl
      · rw [if_neg hstop] at h
        cases hrb : runBatches ops batches m with
        | none => rw [hrb] at h; cases h
        | some r =>
            obtain ⟨m1, tr1⟩ := r
            rw [hrb] at h
            simp only [Option.map_eq_some'] at h
            rcases h with ⟨⟨mf2, tr2⟩, hloop, heq⟩
            cases heq
            rw [countScrap_append,
              countScrap_runBatches ops batches m m1 tr1 hrb,
              ih (e + 1) m1 mf2 tr2 hloop]

theorem chunksAux_one {α : Type} :
    ∀ (fuel : Nat) (l : List α), l.length ≤ fuel →
      chunksAux 1 fuel l = l.map (fun a => [a]) := by
  intro fuel
  induction fuel with
  | zero =>
      intro l h
      cases l with
      | nil => rfl
      | cons a rest => simp at h
  | succ f ih =>
      intro l h
      cases l with
      | nil => rfl
      | cons a rest =>
          simp only [chunksAux, List.take, List.drop, List.map]
          rw [ih rest (by simpa using Nat.le_of_succ_le_succ h)]

theorem chunks_one {α : Type} (l : List α) :
    chunks 1 l = l.map (fun a => [a]) :=
  chunksAux_one l.length l le_rfl

/-- C1: the demonstrated offline training — train(module, face) with
    MaxEpochs(100), batch_size 1 and the memory-caching dataset factory
    returns a trained module; the call trace is one scrap followed by 100
    epochs of "fit on a batch, then step the module" cycles over the
    scraped corpus, every batch passed to fit is an ordered group of
    exactly 1 post, and the returned module is exactly the result of
    replaying those fit/step calls on the initial module. -/
theorem offline_train_demo :
    ∀ fuel : Nat, 100 < fuel →
      ∃ (mf : OfflineModule) (tr : List OfflineEvent),
        offlineTrain myOfflineOps (MaxEpochs 100) DatasetFactoryKind.memory 1
            fuel FaceState.init ⟨modelInitP, [], 1/1000⟩ =
          some (mf, (FaceState.init.scrap none).1, tr)
        ∧ tr = OfflineEvent.scrapCall ::
            List.flatten (List.replicate 100 ((chunks 1 demoPosts).flatMap cycleEvents))
        ∧ (∀ b, OfflineEvent.fitCall b ∈ tr → b.length = 1)
        ∧ applyOfflineEvents myOfflineOps ⟨modelInitP, [], 1/1000⟩ tr =
            some mf := by
  intro fuel hfuel
  have hcyc : ∀ (m : OfflineModule) (b : List Bool),
      ∃ m', myOfflineOps.step (myOfflineOps.fit m b) = some m' :=
    fun m b => offline_cycle_total m b
  rcases offlineLoop_maxEpochs myOfflineOps hcyc (chunks 1 demoPosts)
      fuel 100 0 ⟨modelInitP, [], 1/1000⟩ (Nat.zero_le _) (by omega) with ⟨mf, hloop⟩
  have htrain : offlineTrain myOfflineOps (MaxEpochs 100)
      DatasetFactoryKind.memory 1 fuel FaceState.init ⟨modelInitP, [], 1/1000⟩ =
      some (mf, (FaceState.init.scrap none).1, OfflineEvent.scrapCall ::
        List.flatten (List.replicate 100 ((chunks 1 demoPosts).flatMap cycleEvents))) := by
    have hloop' : offlineLoop myOfflineOps (MaxEpochs 100)
        (chunks 1 (List.map Prod.snd (FaceState.init.scrap none).2)) fuel 0
        ⟨modelInitP, [], 1/1000⟩ =
        some (mf, List.flatten (List.replicate 100
          ((chunks 1 demoPosts).flatMap cycleEvents))) := hloop
    simp only [offlineTrain, makeDataset]
    rw [hloop']
    rfl
  refine ⟨mf, _, htrain, rfl, ?_, ?_⟩
  · intro b hb
    rcases List.mem_cons.mp hb with h1 | h1
    · cases h1
    · rcases List.mem_flatten.mp h1 with ⟨l, hl, hbl⟩
      have hlx := List.eq_of_mem_replicate hl
      subst hlx
      rcases List.mem_flatMap.mp hbl with ⟨c, hc, hbc⟩
      have hbceq : b = c := by
        rcases List.mem_cons.mp hbc with h2 | h2
        · cases h2; rfl
        · rcases List.mem_cons.mp h2 with h3 | h3
          · cases h3
          · cases h3
      subst hbceq
      rw [chunks_one] at hc
      rcases List.mem_map.mp hc with ⟨a, _, ha⟩
      rw [← ha]
      rfl
  · exact offlineTrain_apply myOfflineOps (MaxEpochs 100)
      DatasetFactoryKind.memory 1 fuel FaceState.init _ mf _ _ htrain

/-- C1 witness: the offline training run at fuel 101. -/
theorem offline_train_demo_witness :
    ∃ (mf : OfflineModule) (tr : List OfflineEvent),
      offlineTrain myOfflineOps (MaxEpochs 100) DatasetFactoryKind.memory 1
          101 FaceState.init ⟨modelInitP, [], 1/1000⟩ =
        some (mf, (FaceState.init.scrap none).1, tr)
      ∧ tr = OfflineEvent.scrapCall ::
          List.flatten (List.replicate 100 ((chunks 1 demoPosts).flatMap cycleEvents))
      ∧ (∀ b, OfflineEvent.fitCall b ∈ tr → b.length = 1)
      ∧ applyOfflineEvents myOfflineOps ⟨modelInitP, [], 1/1000⟩ tr = some mf :=
  offline_train_demo 101 (by decide)

/-- C6: the dataset layer offers two distinct caching strategies, both of
    which cache exactly the posts fetched by the single scrap; during any
    offline train call, with either factory, the face's scrap operation is
    invoked exactly once — it is never re-invoked for the epochs after the
    first. -/
theorem caching_strategies_single_scrap :
    DatasetFactoryKind.memory ≠ DatasetFactoryKind.file
    ∧ (∀ (kind : DatasetFactoryKind) (fetched : List Bool),
        ((makeDataset kind fetched).1).cache = fetched)
    ∧ (∀ (M : Type) (ops : OfflineOps M) (stop : Nat → Bool)
        (kind : DatasetFactoryKind) (bs fuel : Nat) (face : FaceState)
        (m mf : M) (facef : FaceState) (tr : List OfflineEvent),
        offlineTrain ops stop kind bs fuel face m = some (mf, facef, tr) →
        countScrap tr = 1) := by
  refine ⟨by decide, fun kind fetched => by cases kind <;> rfl, ?_⟩
  intro M ops stop kind bs fuel face m mf facef tr h
  simp only [offlineTrain, Option.map_eq_some'] at h
  rcases h with ⟨⟨mf2, tr2⟩, hloop, heq⟩
  cases heq
  simpa [countScrap] using countScrap_offlineLoop ops stop _ fuel 0 m mf2 tr2 hloop

/-- C6 witness: a concrete offline train call (stop condition already
    satisfied at epoch 0) whose trace contains exactly one scrap. -/
theorem caching_strategies_single_scrap_witness :
    countScrap [OfflineEvent.scrapCall] = 1 :=
  caching_strategies_single_scrap.2.2 OfflineModule myOfflineOps
    (MaxEpochs 0) DatasetFactoryKind.memory 1 1 FaceState.init
    ⟨modelInitP, [], 1/1000⟩ ⟨modelInitP, [], 1/1000⟩
    (FaceState.init.scrap none).1 [OfflineEvent.scrapCall] rfl

/-- Whether a trace entry is a face.post call. -/
def OnlineEvent.isPost : OnlineEvent → Bool
  | OnlineEvent.postCall _ _ => true
  | _ => false

/-- Whether a trace entry is a face.score call. -/
def OnlineEvent.isScore : OnlineEvent → Bool
  | OnlineEvent.scoreCall _ _ => true
  | _ => false

/-- Checks that a cycle trace ends with exactly one fit and one step. -/
def cycleTail : List OnlineEvent → Bool
  | [OnlineEvent.fitCall _, OnlineEvent.stepCall] => true
  | _ => false

/-- Checks that a trace segment has the shape of one online cycle: a
    scheduler wait, one sample of n candidates, a run of post calls, a run
    of score calls, one fit and one step, in that order. -/
def cyclePattern (n : Nat) : List OnlineEvent → Bool
  | OnlineEvent.waitCall :: OnlineEvent.sampleCall k :: rest =>
      decide (k = n) &&
        cycleTail ((rest.dropWhile OnlineEvent.isPost).dropWhile
          OnlineEvent.isScore)
  | _ => false

theorem dropWhile_append_of_all {α : Type} (p : α → Bool) :
    ∀ (l1 l2 : List α), (∀ x ∈ l1, p x = true) →
      (l1 ++ l2).dropWhile p = l2.dropWhile p := by
  intro l1
  induction l1 with
  | nil => intro l2 _; rfl
  | cons a rest ih =>
      intro l2 h
      simp only [List.cons_append, List.dropWhile_cons]
      rw [h a (List.mem_cons_self _ _)]
      exact ih l2 (fun x hx => h x (List.mem_cons_of_mem _ hx))

theorem postAll_events_post (cands : List (Nat × Bool)) :
    ∀ face : FaceState, ∀ e ∈ (postAll face cands).2.2,
      OnlineEvent.isPost e = true := by
  induction cands with
  | nil => intro face e he; simp [postAll] at he
  | cons c rest ih =>
      intro face e he
      obtain ⟨iid, data⟩ := c
      simp only [postAll] at he
      rcases List.mem_cons.mp he with h1 | h1
      · rw [h1]; rfl
      · exact ih _ e h1

theorem postAll_keys (cands : List (Nat × Bool)) :
    ∀ face : FaceState,
      ((postAll face cands).2.1).map Prod.fst = cands.map Prod.fst := by
  induction cands with
  | nil => intro face; rfl
  | cons c rest ih =>
      intro face
      obtain ⟨iid, data⟩ := c
      simp [postAll, ih]

theorem postAll_len (cands : List (Nat × Bool)) :
    ∀ face : FaceState, ((postAll face cands).2.1).length = cands.length := by
  induction cands with
  | nil => intro face; rfl
  | cons c rest ih =>
      intro face
      obtain ⟨iid, data⟩ := c
      simp [postAll, ih]

theorem postAll_preserves_isSome (cands : List (Nat × Bool)) :
    ∀ (face : FaceState) (x : Nat), (dictGet face.posts x).isSome →
      (dictGet ((postAll face cands).1).posts x).isSome := by
  induction cands with
  | nil => intro face x h; exact h
  | cons c rest ih =>
      intro face x h
      obtain ⟨iid, data⟩ := c
      simp only [postAll]
      exact ih _ x ((dictGet_dictSet_isSome _ _ _ _).mpr (Or.inr h))

theorem postAll_scoreable (cands : List (Nat × Bool)) :
    ∀ (face : FaceState), ∀ pr ∈ (postAll face cands).2.1,
      (dictGet ((postAll face cands).1).posts pr.2).isSome := by
  induction cands with
  | nil => intro face pr hpr; simp [postAll] at hpr
  | cons c rest ih =>
      intro face pr hpr
      obtain ⟨iid, data⟩ := c
      simp only [postAll] at hpr ⊢
      rcases List.mem_cons.mp hpr with h1 | h1
      · subst h1
        exact postAll_preserves_isSome rest (face.post data).1 _
          ((dictGet_dictSet_isSome _ _ _ _).mpr (Or.inl rfl))
      · exact ih _ pr h1

theorem scoreAll_total (face : FaceState) :
    ∀ (pairs : List (Nat × Nat)),
      (∀ pr ∈ pairs, (dictGet face.posts pr.2).isSome) →
      ∃ out, scoreAll face pairs = some out
        ∧ out.1.length = pairs.length
        ∧ (∀ e ∈ out.2, OnlineEvent.isScore e = true)
        ∧ out.1.map Prod.fst = pairs.map Prod.fst := by
  intro pairs
  induction pairs with
  | nil => intro _; exact ⟨([], []), rfl, rfl, by simp, rfl⟩
  | cons pr rest ih =>
      intro h
      obtain ⟨iid, fid⟩ := pr
      have h1 : (face.score fid).isSome := by
        have hm := h (iid, fid) (List.mem_cons_self _ _)
        simpa [FaceState.score] using hm
      rcases Option.isSome_iff_exists.mp h1 with ⟨v, hv⟩
      rcases ih (fun q hq => h q (List.mem_cons_of_mem _ hq)) with
        ⟨out, hout, hlen, hsc, hkeys⟩
      refine ⟨((iid, (v : ℚ)) :: out.1,
        OnlineEvent.scoreCall fid v :: out.2), ?_, ?_, ?_, ?_⟩
      · simp [scoreAll, hv, hout]
      · simp [hlen]
      · intro e he
        rcases List.mem_cons.mp he with h2 | h2
        · rw [h2]; rfl
        · exact hsc e h2
      · simp [hkeys]

theorem sample_i (n : Nat) :
    ∀ m : OnlineModule, ((m.sample n).1).i = m.i + n := by
  induction n with
  | zero => intro m; rfl
  | succ k ih =>
      intro m
      simp only [OnlineModule.sample, OnlineModule.draw]
      rw [ih]
      show m.i + 1 + k = m.i + (k + 1)
      omega

theorem sample_posts_lower (n : Nat) :
    ∀ (m : OnlineModule) (x : Nat), x < m.i →
      dictGet ((m.sample n).1).posts x = dictGet m.posts x := by
  induction n with
  | zero => intro m x _; rfl
  | succ k ih =>
      intro m x hx
      simp only [OnlineModule.sample, OnlineModule.draw]
      rw [ih _ x (by simpa using Nat.lt_succ_of_lt hx)]
      exact dictGet_dictSet_ne _ _ _ _ (by omega)

theorem sample_pairs (n : Nat) :
    ∀ m : OnlineModule, ∀ pr ∈ (m.sample n).2,
      dictGet ((m.sample n).1).posts pr.1 = some pr.2 := by
  induction n with
  | zero => intro m pr hpr; simp [OnlineModule.sample] at hpr
  | succ k ih =>
      intro m pr hpr
      simp only [OnlineModule.sample, OnlineModule.draw] at hpr ⊢
      rcases List.mem_cons.mp hpr with h1 | h1
      · subst h1
        rw [sample_posts_lower k _ m.i (by simp)]
        exact dictGet_dictSet_self _ _ _
      · exact ih _ pr h1

theorem sample_len (n : Nat) :
    ∀ m : OnlineModule, ((m.sample n).2).length = n := by
  induction n with
  | zero => intro m; rfl
  | succ k ih =>
      intro m
      simp only [OnlineModule.sample, OnlineModule.draw, List.length_cons, ih]

theorem cyclePattern_of_shape (n : Nat) (posts scores : List OnlineEvent)
    (sc : List (Nat × ℚ))
    (hp : ∀ e ∈ posts, OnlineEvent.isPost e = true)
    (hs : ∀ e ∈ scores, OnlineEvent.isScore e = true) :
    cyclePattern n (OnlineEvent.waitCall :: OnlineEvent.sampleCall n ::
      posts ++ scores ++ [OnlineEvent.fitCall sc, OnlineEvent.stepCall]) =
      true := by
  have hred : ∀ (k : Nat) (rest : List OnlineEvent),
      cyclePattern n (OnlineEvent.waitCall :: OnlineEvent.sampleCall k ::
        rest) = (decide (k = n) && cycleTail
          ((rest.dropWhile OnlineEvent.isPost).dropWhile
            OnlineEvent.isScore)) := fun k rest => rfl
  rw [List.append_assoc, List.cons_append, List.cons_append, hred,
    dropWhile_append_of_all OnlineEvent.isPost posts _ hp]
  have h2 : (scores ++
      [OnlineEvent.fitCall sc, OnlineEvent.stepCall]).dropWhile
        OnlineEvent.isPost =
      scores ++ [OnlineEvent.fitCall sc, OnlineEvent.stepCall] := by
    cases scores with
    | nil => rfl
    | cons e t =>
        have he := hs e (List.mem_cons_self _ _)
        cases e <;> simp [OnlineEvent.isScore] at he <;>
          simp [List.dropWhile_cons, OnlineEvent.isPost]
  rw [h2, dropWhile_append_of_all OnlineEvent.isScore scores _ hs]
  simp [cycleTail, List.dropWhile_cons, OnlineEvent.isScore]

theorem online_step_total (m : OnlineModule) (h : m.deltas ≠ []) :
    ∃ m', m.step = some m' := by
  refine ⟨⟨clampP (m.p + m.alpha * (m.deltas.sum / m.deltas.length)),
    [], m.alpha, m.posts, m.i, m.tape⟩, ?_⟩
  simp [OnlineModule.step, mean, h, List.length_eq_zero]

theorem online_fit_total (m : OnlineModule) (scores : List (Nat × ℚ))
    (hne : scores ≠ [])
    (hmem : ∀ pr ∈ scores, (dictGet m.posts pr.1).isSome) :
    ∃ m', m.fit scores = some m' ∧ m'.deltas ≠ [] := by
  rcases collapse_total m.posts scores [] hmem with ⟨d, hd⟩
  have hdne : d ≠ [] := by
    cases scores with
    | nil => exact absurd rfl hne
    | cons pr rest =>
        rcases Option.isSome_iff_exists.mp
          (hmem pr (List.mem_cons_self _ _)) with ⟨b, hb⟩
        simp only [collapseScores, hb] at hd
        exact collapse_ne_nil m.posts rest _ d hd (dictSet_ne_nil _ _ _)
  refine ⟨⟨m.p, m.deltas ++ [((d.map (fun kv =>
      ((if kv.1 then (1 : ℚ) else 0) - m.p) * kv.2)).sum) / d.length],
    m.alpha, m.posts, m.i, m.tape⟩, ?_, by simp⟩
  simp only [OnlineModule.fit, hd, Option.some_bind]
  rw [if_neg (by simpa [List.length_eq_zero] using hdne)]

theorem online_cycle_total (n : Nat) (hn : 0 < n) (face : FaceState)
    (m : OnlineModule) :
    ∃ r, onlineCycle myOnlineOps n face m = some r ∧
      cyclePattern n r.2.2 = true := by
  have hsc := postAll_scoreable (m.sample n).2 face
  rcases scoreAll_total (postAll face (m.sample n).2).1
      (postAll face (m.sample n).2).2.1 hsc with
    ⟨out, hout, hlen, hscore, hkeys⟩
  have houtne : out.1 ≠ [] := by
    have : out.1.length = n := by
      rw [hlen, postAll_len, sample_len]
    intro hnil
    rw [hnil] at this
    simp at this
    omega
  have hmem : ∀ pr ∈ out.1, (dictGet ((m.sample n).1).posts pr.1).isSome := by
    intro pr hpr
    have h1 : pr.1 ∈ out.1.map Prod.fst := List.mem_map_of_mem _ hpr
    rw [hkeys, postAll_keys] at h1
    rcases List.mem_map.mp h1 with ⟨q, hq, hq1⟩
    rw [← hq1, sample_pairs n m q hq]
    rfl
  rcases online_fit_total (m.sample n).1 out.1 houtne hmem with ⟨m1, hm1, hm1d⟩
  rcases online_step_total m1 hm1d with ⟨m2, hm2⟩
  refine ⟨(m2, (postAll face (m.sample n).2).1,
    OnlineEvent.waitCall :: OnlineEvent.sampleCall n ::
      (postAll face (m.sample n).2).2.2 ++ out.2 ++
        [OnlineEvent.fitCall out.1, OnlineEvent.stepCall]), ?_, ?_⟩
  · simp only [onlineCycle, myOnlineOps, hout, Option.some_bind, hm1, hm2,
      Option.map_some']
  · exact cyclePattern_of_shape n _ out.2 out.1
      (postAll_events_post _ face) hscore

theorem onlineLoop_maxUpdates {M : Type} (ops : OnlineOps M) (n : Nat)
    (h : ∀ (face : FaceState) (m : M),
        ∃ r, onlineCycle ops n face m = some r ∧
          cyclePattern n r.2.2 = true) :
    ∀ (fuel k u : Nat) (face : FaceState) (m : M), u ≤ k → k - u < fuel →
      ∃ (mf : M) (facef : FaceState) (segs : List (List OnlineEvent)),
        onlineLoop ops (MaxUpdates k) n fuel u face m =
          some (mf, facef, segs.flatten, (k - u) + 1)
        ∧ segs.length = k - u
        ∧ ∀ s ∈ segs, cyclePattern n s = true := by
  intro fuel
  induction fuel with
  | zero => intro k u face m _ hf; omega
  | succ f ih =>
      intro k u face m huk hf
      by_cases hstop : k ≤ u
      · have hu : u = k := le_antisymm huk hstop
        subst hu
        refine ⟨m, face, [], ?_, by simp [Nat.sub_self], by simp⟩
        simp [onlineLoop, MaxUpdates, Nat.sub_self]
      · rcases h face m with ⟨r, hr, hrpat⟩
        obtain ⟨m1, face1, ctr⟩ := r
        rcases ih k (u + 1) face1 m1 (by omega) (by omega) with
          ⟨mf, facef, segs, hloop, hsegs, hpat⟩
        refine ⟨mf, facef, ctr :: segs,
          ?_, by simp only [List.length_cons, hsegs]; omega, ?_⟩
        · simp only [onlineLoop, MaxUpdates]
          rw [if_neg (by simpa using hstop), hr]
          simp only [hloop, Option.map_some']
          have harith : (k - (u + 1)) + 1 + 1 = (k - u) + 1 := by omega
          simp [harith]
        · intro s hsm
          rcases List.mem_cons.mp hsm with h1 | h1
          · rw [h1]; exact hrpat
          · exact hpat s h1

theorem applyOnlineEvents_append {M : Type} (ops : OnlineOps M) :
    ∀ (t1 t2 : List OnlineEvent) (m : M),
      applyOnlineEvents ops m (t1 ++ t2) =
        (applyOnlineEvents ops m t1).bind
          (fun m1 => applyOnlineEvents ops m1 t2) := by
  intro t1
  induction t1 with
  | nil => intro t2 m; simp [applyOnlineEvents]
  | cons e rest ih =>
      intro t2 m
      cases e with
      | waitCall => simpa [applyOnlineEvents] using ih t2 m
      | postCall d pid => simpa [applyOnlineEvents] using ih t2 m
      | scoreCall pid v => simpa [applyOnlineEvents] using ih t2 m
      | sampleCall n =>
          simpa [applyOnlineEvents] using ih t2 (ops.sample m n).1
      | fitCall sc =>
          simp only [List.cons_append, applyOnlineEvents]
          cases ops.fit m sc with
          | none => rfl
          | some m1 => exact ih t2 m1
      | stepCall =>
          simp only [List.cons_append, applyOnlineEvents]
          cases ops.step m with
          | none => rfl
          | some m1 => exact ih t2 m1

theorem applyOnlineEvents_skips {M : Type} (ops : OnlineOps M) :
    ∀ tr : List OnlineEvent,
      (∀ e ∈ tr, OnlineEvent.isPost e = true ∨ OnlineEvent.isScore e = true) →
      ∀ m : M, applyOnlineEvents ops m tr = some m := by
  intro tr
  induction tr with
  | nil => intro _ m; rfl
  | cons e rest ih =>
      intro h m
      have he := h e (List.mem_cons_self _ _)
      have hrest := fun x hx => h x (List.mem_cons_of_mem _ hx)
      cases e with
      | postCall d pid => exact ih hrest m
      | scoreCall pid v => exact ih hrest m
      | waitCall => simp [OnlineEvent.isPost, OnlineEvent.isScore] at he
      | sampleCall n => simp [OnlineEvent.isPost, OnlineEvent.isScore] at he
      | fitCall sc => simp [OnlineEvent.isPost, OnlineEvent.isScore] at he
      | stepCall => simp [OnlineEvent.isPost, OnlineEvent.isScore] at he

theorem scoreAll_events (face : FaceState) :
    ∀ (pairs : List (Nat × Nat)) (out : List (Nat × ℚ) × List OnlineEvent),
      scoreAll face pairs = some out →
      ∀ e ∈ out.2, OnlineEvent.isScore e = true := by
  intro pairs
  induction pairs with
  | nil => intro out h e he; cases h; simp at he
  | cons pr rest ih =>
      intro out h e he
      obtain ⟨iid, fid⟩ := pr
      simp only [scoreAll] at h
      cases hv : face.score fid with
      | none => rw [hv] at h; cases h
      | some v =>
          rw [hv] at h
          simp only [Option.map_eq_some'] at h
          rcases h with ⟨out2, hout2, heq⟩
          cases heq
          rcases List.mem_cons.mp he with h1 | h1
          · rw [h1]; rfl
          · exact ih out2 hout2 e h1

theorem onlineCycle_apply {M : Type} (ops : OnlineOps M) (n : Nat)
    (face : FaceState) (m : M) (r : M × FaceState × List OnlineEvent)
    (h : onlineCycle ops n face m = some r) :
    applyOnlineEvents ops m r.2.2 = some r.1 := by
  simp only [onlineCycle] at h
  cases hsc : scoreAll (postAll face (ops.sample m n).2).1
      (postAll face (ops.sample m n).2).2.1 with
  | none => rw [hsc, Option.none_bind] at h; cases h
  | some sc =>
      rw [hsc, Option.some_bind] at h
      cases hfit : ops.fit (ops.sample m n).1 sc.1 with
      | none => rw [hfit, Option.none_bind] at h; cases h
      | some m1 =>
          rw [hfit, Option.some_bind] at h
          cases hstep : ops.step m1 with
          | none => rw [hstep, Option.map_none'] at h; cases h
          | some m2 =>
              rw [hstep, Option.map_some'] at h
              cases h
              simp only [applyOnlineEvents, List.append_eq]
              rw [List.append_assoc, applyOnlineEvents_append]
              rw [applyOnlineEvents_skips ops _
                (fun e he => Or.inl (postAll_events_post _ face e he))]
              have hscev : ∀ e ∈ sc.2, OnlineEvent.isScore e = true :=
                scoreAll_events _ _ sc hsc
              rw [Option.some_bind, applyOnlineEvents_append,
                applyOnlineEvents_skips ops _ (fun e he => Or.inr (hscev e he)),
                Option.some_bind]
              simp [applyOnlineEvents, hfit, hstep]

theorem onlineTrain_apply {M : Type} (ops : OnlineOps M) (stop : Nat → Bool)
    (n : Nat) :
    ∀ (fuel u : Nat) (face : FaceState) (m mf : M) (facef : FaceState)
      (tr : List OnlineEvent) (q : Nat),
      onlineLoop ops stop n fuel u face m = some (mf, facef, tr, q) →
      applyOnlineEvents ops m tr = some mf := by
  intro fuel
  induction fuel with
  | zero => intro u face m mf facef tr q h; cases h
  | succ f ih =>
      intro u face m mf facef tr q h
      simp only [onlineLoop] at h
      by_cases hstop : stop u = true
      · rw [if_pos hstop] at h; cases h; rfl
      · rw [if_neg hstop] at h
        cases hcy : onlineCycle ops n face m with
        | none => rw [hcy] at h; cases h
        | some r =>
            obtain ⟨m1, face1, ctr⟩ := r
            rw [hcy] at h
            simp only [Option.map_eq_some'] at h
            rcases h with ⟨⟨mf2, facef2, tr2, q2⟩, hloop, heq⟩
            cases heq
            rw [applyOnlineEvents_append,
              onlineCycle_apply ops n face m (m1, face1, ctr) hcy,
              Option.some_bind]
            exact ih (u + 1) face1 m1 mf2 facef2 tr2 q2 hloop

/-- C2: the demonstrated online training — train(module, face) with
    MaxUpdates(100) and 10 generated candidates per cycle drives exactly
    100 scheduler-gated cycles of "sample candidates, publish each via
    face.post, collect each score via face.score, fit on the scores, then
    step"; the stop condition is queried exactly once per training
    iteration (101 queries: one before each of the 100 cycles plus the
    final halting query), the loop halts when it is satisfied, and the
    returned module is the result of the recorded module-contract calls. -/
theorem online_train_demo :
    ∀ (fuel : Nat) (face : FaceState) (m : OnlineModule), 100 < fuel →
      ∃ (mf : OnlineModule) (facef : FaceState)
        (segs : List (List OnlineEvent)),
        onlineTrain myOnlineOps (MaxUpdates 100) 10 fuel face m =
          some (mf, facef, segs.flatten, 101)
        ∧ segs.length = 100
        ∧ (∀ s ∈ segs, cyclePattern 10 s = true)
        ∧ applyOnlineEvents myOnlineOps m segs.flatten = some mf := by
  intro fuel face m hfuel
  rcases onlineLoop_maxUpdates myOnlineOps 10
      (fun fc mm => online_cycle_total 10 (by norm_num) fc mm)
      fuel 100 0 face m (Nat.zero_le _) (by omega) with
    ⟨mf, facef, segs, hloop, hsegs, hpat⟩
  exact ⟨mf, facef, segs, hloop, hsegs, hpat,
    onlineTrain_apply myOnlineOps (MaxUpdates 100) 10 fuel 0 face m mf facef
      segs.flatten 101 hloop⟩

/-- C2 witness: the online training run at fuel 101, from a fresh face and
    a fresh module with p = 0.5 and alpha = 0.1. -/
theorem online_train_demo_witness :
    ∃ (mf : OnlineModule) (facef : FaceState)
      (segs : List (List OnlineEvent)),
      onlineTrain myOnlineOps (MaxUpdates 100) 10 101 FaceState.init
          ⟨modelInitP, [], 1/10, [], 0, []⟩ =
        some (mf, facef, segs.flatten, 101)
      ∧ segs.length = 100
      ∧ (∀ s ∈ segs, cyclePattern 10 s = true)
      ∧ applyOnlineEvents myOnlineOps ⟨modelInitP, [], 1/10, [], 0, []⟩
          segs.flatten = some mf :=
  online_train_demo 101 FaceState.init ⟨modelInitP, [], 1/10, [], 0, []⟩
    (by decide)

/-- C8: the trainers read and write the module only through the module
    contract: whenever an offline or online train call returns a trained
    module, that module equals the replay of the recorded fit/step
    (offline) or sample/fit/step (online) calls on the initial module —
    for every module type and every implementation of the contract, so the
    trainers cannot touch any other part of the module or model state. -/
theorem trainers_use_module_contract_only :
    (∀ (M : Type) (ops : OfflineOps M) (stop : Nat → Bool)
        (kind : DatasetFactoryKind) (bs fuel : Nat) (face : FaceState)
        (m mf : M) (facef : FaceState) (tr : List OfflineEvent),
        offlineTrain ops stop kind bs fuel face m = some (mf, facef, tr) →
        applyOfflineEvents ops m tr = some mf)
    ∧ (∀ (M : Type) (ops : OnlineOps M) (stop : Nat → Bool) (n fuel : Nat)
        (face : FaceState) (m mf : M) (facef : FaceState)
        (tr : List OnlineEvent) (q : Nat),
        onlineTrain ops stop n fuel face m = some (mf, facef, tr, q) →
        applyOnlineEvents ops m tr = some mf) :=
  ⟨fun _ ops stop kind bs fuel face m mf facef tr h =>
      offlineTrain_apply ops stop kind bs fuel face m mf facef tr h,
   fun _ ops stop n fuel face m mf facef tr q h =>
      onlineTrain_apply ops stop n fuel 0 face m mf facef tr q h⟩

/-- C8 witness: both trainers run with an immediately satisfied stop
    condition return the module unchanged, matching the replay of their
    (module-call-free) traces. -/
theorem trainers_use_module_contract_only_witness :
    applyOfflineEvents myOfflineOps ⟨modelInitP, [], 1/1000⟩
        [OfflineEvent.scrapCall] = some ⟨modelInitP, [], 1/1000⟩
    ∧ applyOnlineEvents myOnlineOps
        (⟨modelInitP, [], 1/10, [], 0, []⟩ : OnlineModule) [] =
        some ⟨modelInitP, [], 1/10, [], 0, []⟩ :=
  ⟨trainers_use_module_contract_only.1 OfflineModule myOfflineOps
      (MaxEpochs 0) DatasetFactoryKind.memory 1 1 FaceState.init
      ⟨modelInitP, [], 1/1000⟩ ⟨modelInitP, [], 1/1000⟩
      (FaceState.init.scrap none).1 [OfflineEvent.scrapCall] rfl,
   trainers_use_module_contract_only.2 OnlineModule myOnlineOps
      (MaxUpdates 0) 10 1 FaceState.init ⟨modelInitP, [], 1/10, [], 0, []⟩
      ⟨modelInitP, [], 1/10, [], 0, []⟩ FaceState.init [] 1 rfl⟩

end Kilroy
